import Mathlib

set_option maxRecDepth 100000
set_option maxHeartbeats 1600000
set_option allowUnsafeReducibility true
attribute [local semireducible] Rat.add Rat.mul Rat.sub Rat.div Rat.inv Rat.neg Rat.normalize Rat.blt Rat.floor

/-!
Verification of the heading/outline detection engine and the persona-driven
relevance ranking pipeline of the DocuSense backend
(`backend/app/outline_core.py` and `backend/app/document_intelligence.py`),
via a shallow embedding in Lean 4.

Python floats are modelled by `ℚ` (all literal weights are exact decimals),
Python strings by `String` restricted to the ASCII behaviour of
`str.lower` / `str.isupper` / `str.isalpha`, and Python dicts for sections by
structures with `Option`-valued fields (`None` / missing key = `none`,
`dict.get` defaults = `Option.getD`).  Python's `list.sort(key, reverse=True)`
is a stable sort; every stable sort computes the same list, and it is
modelled by `List.insertionSort` with the reflexive total relation
`fun a b => key b ≤ key a` (ties keep input order).
-/

/-! ### Python string helpers -/

/-- Model of Python `str.lstrip()`: drop leading whitespace characters. -/
def pyLstrip (s : String) : String :=
  String.mk (s.toList.dropWhile Char.isWhitespace)

/-- Split a character list at every whitespace character, keeping (possibly
empty) fragments; the accumulator holds the current fragment. -/
def splitWsAux : List Char → List Char → List String
  | [], acc => [String.mk acc]
  | c :: cs, acc =>
    if c.isWhitespace then String.mk acc :: splitWsAux cs []
    else splitWsAux cs (acc ++ [c])

/-- Model of Python `str.split()` with no argument: split on whitespace
characters, dropping empty fragments. -/
def pyWords (s : String) : List String :=
  (splitWsAux s.toList []).filter (fun w => w ≠ "")

/-- Model of Python `sub in s` (substring containment). -/
def strContains (s sub : String) : Bool :=
  (List.range (s.toList.length + 1)).any fun i => sub.toList.isPrefixOf (s.toList.drop i)

/-- Model of Python `str.capitalize()`: first character uppercased, the rest
lowercased. -/
def pyCapitalize (s : String) : String :=
  match s.toList with
  | [] => ""
  | c :: cs => String.mk (c.toUpper :: cs.map Char.toLower)

/-- Count of the occurrences of a character in a string, modelling
Python `str.count(ch)` for a single character. -/
def charCount (s : String) (c : Char) : ℕ :=
  (s.toList.filter (fun d => d = c)).length

/-- Model of Python `round(x, 2)` on a rational: round to two decimal places
with round-half-to-even, as Python's `round` does. -/
def round2 (q : ℚ) : ℚ :=
  let x : ℚ := q * 100
  let n : ℤ := ⌊x⌋
  let frac : ℚ := x - n
  let r : ℤ :=
    if frac > 1/2 then n + 1
    else if frac < 1/2 then n
    else if n % 2 = 0 then n else n + 1
  (r : ℚ) / 100

/-! ### `outline_core.py`: constants and line classification -/

/-- Source constant `MAX_WORDS_HEADING = 20`. -/
def MAX_WORDS_HEADING : ℕ := 20

/-- Source constant `UPPERCASE_RATIO_MIN = 0.2`. -/
def UPPERCASE_RATIO_MIN : ℚ := 2/10

/-- Source constant `MIN_HEADING_SCORE = 1.0`. -/
def MIN_HEADING_SCORE : ℚ := 1

/-- Source constant `GAP_THRESH = 3`. -/
def GAP_THRESH : ℚ := 3

/-- Source constant `BULLET_START_TOKENS = ("•", "-", "–", "*", "·", "o", "●", "◦")`;
all tokens are single characters, so Python `startswith(tuple)` is a check on
the first character. -/
def BULLET_START_TOKENS : List Char := ['•', '-', '–', '*', '·', 'o', '●', '◦']

/-- Source constant `PUNCT = set(",.;:!?()[]{}'\"")`. -/
def PUNCT : List Char :=
  [',', '.', ';', ':', '!', '?', '(', ')', '[', ']', '\x7b', '\x7d', '\'', '"']

/-- Bounding box of a line, Python tuple `(x0, y0, x1, y1)`. -/
structure BBox where
  x0 : ℚ
  y0 : ℚ
  x1 : ℚ
  y1 : ℚ
deriving DecidableEq, Repr

/-- Source dataclass `LineBlock`. -/
structure LineBlock where
  text : String
  page : ℕ
  bbox : BBox
  font_size : ℚ
  is_bold : Bool
  caps_ratio : ℚ
  font_rank : ℕ
  tag : String := "BODY"
deriving DecidableEq, Repr

/-- Source `_caps_ratio`: fraction of uppercase letters among the alphabetic
characters of the text. -/
def caps_ratio (t : String) : ℚ :=
  let letters := t.toList.filter Char.isAlpha
  if letters = [] then 0
  else ((letters.filter Char.isUpper).length : ℚ) / (letters.length : ℚ)

/-- Match of the regex `^\d+[\.\)]\s+` used by `_is_bullet`: one or more
digits, a period or closing parenthesis, then at least one whitespace
character. -/
def numberedBulletMatch (cs : List Char) : Bool :=
  let ds := cs.takeWhile Char.isDigit
  let rest := cs.dropWhile Char.isDigit
  match ds, rest with
  | _ :: _, c :: c2 :: _ => (c = '.' || c = ')') && c2.isWhitespace
  | _, _ => false

/-- Source `_is_bullet`: left-strip the text, then test for a leading bullet
glyph or a numbered "N." / "N)" prefix. -/
def is_bullet (t : String) : Bool :=
  let t' := pyLstrip t
  match t'.toList with
  | c :: _ => c ∈ BULLET_START_TOKENS || numberedBulletMatch t'.toList
  | [] => numberedBulletMatch t'.toList

/-- Match of the regex `^\d+\.?\d*\.?\s` in `_score_line` (numbered section
prefixes such as "1.", "1.1"). -/
def numberedHeadingMatch (cs : List Char) : Bool :=
  let d1 := cs.takeWhile Char.isDigit
  let r1 := cs.dropWhile Char.isDigit
  if d1 = [] then false
  else
    let r2 := match r1 with | '.' :: t => t | _ => r1
    let r3 := r2.dropWhile Char.isDigit
    let r4 := match r3 with | '.' :: t => t | _ => r3
    match r4 with | c :: _ => c.isWhitespace | [] => false

/-- Match of the regex `^[A-Z]\.?\s` in `_score_line`. -/
def letterHeadingMatch (cs : List Char) : Bool :=
  match cs with
  | c :: rest =>
    if c.isUpper then
      match (match rest with | '.' :: t => t | _ => rest) with
      | c2 :: _ => c2.isWhitespace
      | [] => false
    else false
  | [] => false

/-- Match of the regex `^[IVX]+\.?\s` in `_score_line`. -/
def romanHeadingMatch (cs : List Char) : Bool :=
  let isRoman := fun (c : Char) => c = 'I' || c = 'V' || c = 'X'
  let r := cs.takeWhile isRoman
  let rest := cs.dropWhile isRoman
  match r, (match rest with | '.' :: t => t | _ => rest) with
  | _ :: _, c2 :: _ => c2.isWhitespace
  | _, _ => false

/-- Match of the regex `^\([a-zA-Z0-9]+\)` in `_score_line`. -/
def parenHeadingMatch (cs : List Char) : Bool :=
  match cs with
  | '(' :: rest =>
    (rest.takeWhile Char.isAlphanum ≠ []) &&
      (match rest.dropWhile Char.isAlphanum with | ')' :: _ => true | _ => false)
  | _ => false

/-- Source list `heading_words` inside `_score_line`. -/
def heading_words : List String :=
  ["chapter", "section", "introduction", "conclusion", "summary",
   "overview", "background", "methodology", "results", "discussion",
   "abstract", "appendix", "references", "bibliography", "executive",
   "table of contents", "contents", "index", "glossary", "preface",
   "acknowledgments", "foreword", "part", "volume", "book", "unit",
   "lesson", "exercise", "problem", "solution", "example", "case",
   "study", "analysis", "evaluation", "assessment", "review",
   "objective", "goal", "purpose", "scope", "definition", "concept",
   "theory", "principle", "method", "approach", "technique", "process",
   "procedure", "step", "phase", "stage", "level", "degree", "grade",
   "key", "main", "primary", "secondary", "important", "critical",
   "essential", "fundamental", "basic", "advanced", "final", "initial"]

/-- Source list of preposition prefixes tested by `_score_line`. -/
def prepositionPrefixes : List String :=
  ["in ", "on ", "at ", "for ", "of ", "to ", "by "]

/-- Source `_score_line(text, caps, font_rank, is_bold, gap_above)`: the
additive heading-likelihood score.  A bullet line returns `-5.0` immediately.
The source accumulates into `s` through a sequence of independent conditional
increments (no condition reads `s`), so the accumulation is written as the
sum of the per-signal addends, one addend per source `if`/`elif` chain. -/
def score_line (text : String) (caps : ℚ) (font_rank : ℕ) (is_bold : Bool)
    (gap_above : ℚ) : ℚ :=
  if is_bullet text then -5
  else
    let w := (pyWords text).length
    (if (match text.toList with | c :: _ => c.isLower | [] => false)
      then (-1 : ℚ) else 0)
    + (if prepositionPrefixes.any (fun p => (text.toLower).startsWith p)
      then (-(5/10) : ℚ) else 0)
    + (if font_rank = 0 then (2 : ℚ)
      else if font_rank = 1 then 15/10
      else if font_rank = 2 then 12/10
      else if font_rank = 3 then 1
      else if font_rank = 4 then 8/10
      else if font_rank ≤ 6 then 5/10
      else 0)
    + (if is_bold then (15/10 : ℚ) else 0)
    + (if w ≤ MAX_WORDS_HEADING then (15/10 : ℚ) else 0)
    + (if w ≤ 5 then (1 : ℚ) else 0)
    + (if w ≤ 8 then (5/10 : ℚ) else 0)
    + (if caps ≥ 8/10 then (12/10 : ℚ)
      else if caps ≥ UPPERCASE_RATIO_MIN then 8/10
      else if caps ≥ 1/10 then 3/10
      else 0)
    + (if numberedHeadingMatch text.toList then (15/10 : ℚ)
      else if letterHeadingMatch text.toList then 12/10
      else if romanHeadingMatch text.toList then 12/10
      else if parenHeadingMatch text.toList then 1
      else 0)
    + (if heading_words.any (fun wd => strContains text.toLower wd)
      then (1 : ℚ) else 0)
    + (if text.endsWith "?" && decide (w ≤ 12) then (8/10 : ℚ) else 0)
    + (if text.endsWith ":" && decide (w ≤ 10) then (8/10 : ℚ) else 0)
    + (if caps ≥ 9/10 ∧ w ≤ 6 then (1 : ℚ) else 0)
    + (if ((text.toList.filter (fun ch => ch ∈ PUNCT)).length ≥ 4) then (-(3/10) : ℚ)
      else if (text.toList.filter (fun ch => ch ∈ PUNCT)).length = 0 ∧ w > 1 then 5/10
      else 0)
    + (if gap_above > GAP_THRESH * 2 then (1 : ℚ)
      else if gap_above > GAP_THRESH then 7/10
      else if gap_above > GAP_THRESH / 2 then 4/10
      else 0)
    + (if text.length < 3 then (-(15/10) : ℚ)
      else if 3 ≤ text.length ∧ text.length ≤ 80 then 5/10
      else if text.length > 150 then -(8/10)
      else 0)
    + (if charCount text '.' ≤ 1 ∧ ¬ text.endsWith "." ∧ w ≥ 2 then (3/10 : ℚ)
      else 0)

/-! ### `outline_core.py`: `extract_outline_blocks`

The `fitz` page iteration and span merging of `_extract_page_lines` are file
I/O; the embedding therefore starts from the `raw` list of per-line records
that `extract_outline_blocks` collects (text, 1-based page, bbox, bold flag,
max font size), and models everything from `if not raw` onward. -/

/-- One entry of the `raw` list built inside `extract_outline_blocks`. -/
structure RawLine where
  text : String
  page : ℕ
  bbox : BBox
  is_bold : Bool
  font_size : ℚ
deriving DecidableEq, Repr

/-- Assignment of font ranks: `uniq = sorted({round(fs, 2)}, reverse=True)`,
`rankmap = {sz: i}`; the rank of a size is its index in the descending list of
distinct rounded sizes. -/
def fontRankList (raw : List RawLine) : List ℚ :=
  ((raw.map (fun r => round2 r.font_size)).dedup).insertionSort (fun a b => b ≤ a)

/-- Untagged `LineBlock` built from one raw line (loop `for r in raw`). -/
def mkLineBlock (raw : List RawLine) (r : RawLine) : LineBlock :=
  { text := r.text
    page := r.page
    bbox := r.bbox
    font_size := r.font_size
    is_bold := r.is_bold
    caps_ratio := caps_ratio r.text
    font_rank := (fontRankList raw).indexOf (round2 r.font_size)
    tag := "BODY" }

/-- Vertical gap above block `i`: `9999` for the first block or a page break,
else `b.bbox[1] - prev.bbox[3]`. -/
def gapAbove (blocks : List LineBlock) (i : ℕ) (b : LineBlock) : ℚ :=
  if i = 0 then 9999
  else
    match blocks.get? (i - 1) with
    | some prev => if prev.page ≠ b.page then 9999 else b.bbox.y0 - prev.bbox.y1
    | none => 9999

/-- Condition `title is None or b.font_size > title.font_size` from the
title-selection loop. -/
def titleBeats (t : Option (ℕ × LineBlock)) (b : LineBlock) : Bool :=
  match t with
  | none => true
  | some tb => decide (b.font_size > tb.2.font_size)

/-- One step of the title-selection loop (see `titleBeats`). -/
def titleStep (t : Option (ℕ × LineBlock)) (ib : ℕ × LineBlock) : Option (ℕ × LineBlock) :=
  if ib.2.page = 1 ∧ ib.2.caps_ratio > 7/10 ∧ titleBeats t ib.2 = true then
    some ib
  else t

/-- Index (and block) selected as title by the scan over all blocks. -/
def titleChoice (blocks : List LineBlock) : Option (ℕ × LineBlock) :=
  List.foldl titleStep none blocks.enum

/-- Final tag of block `i`: the `TITLE` overwrite (applied after the loop)
wins over the `HEADING` tag from `s >= MIN_HEADING_SCORE`, and the default
tag is `BODY`. -/
def finalTag (blocks : List LineBlock) (tIdx : Option ℕ) (i : ℕ) (b : LineBlock) : String :=
  if tIdx = some i then "TITLE"
  else if score_line b.text b.caps_ratio b.font_rank b.is_bold (gapAbove blocks i b)
          ≥ MIN_HEADING_SCORE then "HEADING"
  else "BODY"

/-- Tagging pass over the built blocks: each block receives its final tag. -/
def taggedBlocks (blocks : List LineBlock) : List LineBlock :=
  blocks.enum.map fun ib =>
    { ib.2 with tag := (finalTag blocks ((titleChoice blocks).map Prod.fst) ib.1 ib.2) }

/-- Source `extract_outline_blocks`, from the `raw` line records onward:
returns the (re-tagged) title block, if any, and the list of tagged blocks. -/
def extract_outline_blocks (raw : List RawLine) : Option LineBlock × List LineBlock :=
  if raw = [] then (none, [])
  else
    ((titleChoice (raw.map (mkLineBlock raw))).map (fun tb => { tb.2 with tag := "TITLE" }),
      taggedBlocks (raw.map (mkLineBlock raw)))

/-! ### `document_intelligence.py`: `build_sections_from_blocks` -/

/-- One section record produced by `build_sections_from_blocks`
(dict keys `doc`, `heading`, `page`, `text`). -/
structure SecRec where
  doc : String
  heading : String
  page : ℕ
  text : String
deriving DecidableEq, Repr

/-- The `flush()` closure: emit a section for the current heading, if any;
its page is `min(current_pages)` when the page set is nonempty, else the
heading's own page. -/
def flushSection (doc_name : String) (ch : Option LineBlock) (ct : List String)
    (cp : Finset ℕ) : List SecRec :=
  match ch with
  | none => []
  | some h =>
    [{ doc := doc_name
       heading := h.text
       page := if hne : cp.Nonempty then cp.min' hne else h.page
       text := (String.intercalate " " ct).trim }]

/-- The scan loop of `build_sections_from_blocks` over the blocks, carrying
the current heading, body texts, and page set. -/
def buildLoop (doc_name : String) : List LineBlock → Option LineBlock → List String →
    Finset ℕ → List SecRec
  | [], ch, ct, cp => flushSection doc_name ch ct cp
  | b :: bs, ch, ct, cp =>
    if b.tag = "TITLE" then buildLoop doc_name bs ch ct cp
    else if b.tag = "HEADING" then
      flushSection doc_name ch ct cp ++ buildLoop doc_name bs (some b) [] {b.page}
    else
      match ch with
      | some h => buildLoop doc_name bs (some h) (ct ++ [b.text]) (insert b.page cp)
      | none => buildLoop doc_name bs none ct cp

/-- Source `build_sections_from_blocks(title_block, blocks, doc_name)`;
the `title_block` argument is unused by the source body (it skips `TITLE`
tags instead).  When no heading produced a section, a single whole-document
fallback section is emitted. -/
def build_sections_from_blocks (title_block : Option LineBlock)
    (blocks : List LineBlock) (doc_name : String) : List SecRec :=
  let _ := title_block
  let sections := buildLoop doc_name blocks none [] ∅
  if sections = [] then
    [{ doc := doc_name
       heading := doc_name
       page := 1
       text := (String.intercalate " "
         ((blocks.filter (fun b => b.tag ≠ "TITLE")).map (fun b => b.text))).trim }]
  else sections

/-! ### The `scoring` module interface

`document_intelligence.py` imports a sibling module `scoring`
(`from . import scoring`) that is not among the repository sources here.
The functions of that module are therefore treated as an abstract interface:
every theorem about `rank_sections` / `find_related_sections` is proved for an
arbitrary `ScoringModule`.  Keyword sets are modelled as lists (Python set
iteration order is determinized to first-occurrence order), and the §4.4
contract "one relevance score per section" is carried as the `scores_length`
law. -/

structure ScoringModule where
  build_query : String → String → String
  build_keywords : String → String → List String
  keyword_set : String → List String
  combined_scores : String → List String → List String → List String → List ℚ
  scores_length : ∀ q hs ts kw, (combined_scores q hs ts kw).length = hs.length

/-! ### `document_intelligence.py`: `rank_sections` and top-K selection -/

/-- Section dict after `rank_sections` attached `score` and
`importance_rank`. -/
structure RankedSection where
  doc : String
  heading : String
  page : ℕ
  text : String
  score : ℚ
  importance_rank : ℕ
deriving DecidableEq, Repr

/-- Sections paired with their scores (`s["score"] = float(sc)` over
`zip(sections, scores)`), before the sort. -/
def scored_sections (sc : ScoringModule) (persona job : String)
    (sections : List SecRec) : List RankedSection :=
  let query := sc.build_query persona job
  let kw := sc.build_keywords persona job
  let headings := sections.map (fun s => s.heading)
  let texts := sections.map (fun s => s.text)
  let scores := sc.combined_scores query headings texts kw
  (sections.zip scores).map fun p =>
    { doc := p.1.doc, heading := p.1.heading, page := p.1.page, text := p.1.text
      score := p.2, importance_rank := 0 }

/-- Python's stable `sections.sort(key=lambda x: x["score"], reverse=True)`. -/
def sort_by_score (l : List RankedSection) : List RankedSection :=
  l.insertionSort (fun a b => b.score ≤ a.score)

/-- Source `rank_sections`: score, stable-sort descending, then assign
`importance_rank` from `enumerate(sections, start=1)`. -/
def rank_sections (sc : ScoringModule) (persona job : String)
    (sections : List SecRec) : List RankedSection :=
  (List.enumFrom 1 (sort_by_score (scored_sections sc persona job sections))).map
    fun p => { p.2 with importance_rank := p.1 }

/-- Top-K selection in `process_documents_intelligence`:
`ranked[: min(len(ranked), topk_sections)]`. -/
def select_top (ranked : List RankedSection) (topk : ℕ) : List RankedSection :=
  ranked.take (min ranked.length topk)

/-! ### `document_intelligence.py`: `find_related_sections` -/

/-- Section dict as consumed by `find_related_sections`; every key access in
the source uses `.get` with a default, so each field is optional. -/
structure PySection where
  document : Option String
  section_title : Option String
  page_number : Option ℕ
  page : Option ℕ
  text : Option String
  importance_rank : Option ℕ
  relevance_score : Option ℚ
  contextual_score : Option ℚ := none
deriving DecidableEq, Repr

/-- The page accessor `s.get("page_number", s.get("page", 0))` used by the
filtering pass. -/
def pageKey (s : PySection) : ℕ :=
  s.page_number.getD (s.page.getD 0)

/-- Source `_get_current_document_from_page`: the document of the first
section whose page equals `current_page`, else `None`. -/
def get_current_document_from_page (current_page : ℕ)
    (all_sections : List PySection) : Option String :=
  match all_sections.find? (fun s => pageKey s = current_page) with
  | some s => some (s.document.getD "Unknown Document")
  | none => none

/-- Indicator words of the ×1.15 "key section" boost. -/
def keyIndicators : List String := ["conclusion", "summary", "key", "important"]

/-- Pass 3 of `find_related_sections`: the contextual boosts applied to one
base score (×1.3 same document as the current page, ×1.2 importance rank ≤ 5,
×1.15 key-section title), stacking multiplicatively.  `current_doc` is tested
for Python truthiness (non-`None` and nonempty). -/
def boostScore (current_doc : Option String) (sec : PySection) (base : ℚ) : ℚ :=
  let b1 :=
    match current_doc with
    | some d => if d ≠ "" ∧ sec.document = some d then base * (13/10) else base
    | none => base
  let b2 := if sec.importance_rank.getD 10 ≤ 5 then b1 * (12/10) else b1
  let b3 :=
    if keyIndicators.any
        (fun ind => strContains (sec.section_title.getD "").toLower ind)
    then b2 * (115/100) else b2
  b3

/-- Passes 2–3: recompute base scores against the augmented query and store
the boosted score into each candidate's `contextual_score`. -/
def contextualize (sc : ScoringModule) (current_page : ℕ) (current_section : String)
    (persona job : String) (all_sections filtered : List PySection) : List PySection :=
  let query := persona ++ " " ++ job ++ " " ++ current_section
  let kw := (sc.build_keywords persona job ++ sc.keyword_set current_section).dedup
  let headings := filtered.map (fun s => s.section_title.getD "Unknown Section")
  let texts := filtered.map (fun s => s.section_title.getD "" ++ " " ++ s.text.getD "")
  let base_scores := sc.combined_scores query headings texts kw
  let current_doc := get_current_document_from_page current_page all_sections
  (filtered.zip base_scores).map fun p =>
    { p.1 with contextual_score := some (boostScore current_doc p.1 p.2) }

/-- One step of the pass-4 diversification loop, carrying the
`diversified_sections` list and the `seen_documents` set. -/
def diversifyStep (limit : ℕ) (st : List PySection × List String) (sec : PySection) :
    List PySection × List String :=
  if st.1.length < limit then
    (st.1 ++ [sec], st.2.insert (sec.document.getD "Unknown"))
  else if sec.document.getD "Unknown" ∉ st.2 ∧ st.1.length < limit * 2 then
    (st.1 ++ [sec], st.2.insert (sec.document.getD "Unknown"))
  else st

/-- Pass 4: scan the score-sorted candidates, then truncate the diversified
list to `limit` (`diversified_sections[:limit]`). -/
def diversify (limit : ℕ) (sorted : List PySection) : List PySection :=
  (List.foldl (diversifyStep limit) ([], []) sorted).1.take limit

/-- Stable descending sort by `x.get("contextual_score", 0)`. -/
def sortByContextual (l : List PySection) : List PySection :=
  l.insertionSort (fun a b => b.contextual_score.getD 0 ≤ a.contextual_score.getD 0)

/-- Stable descending sort by `x.get("relevance_score", 0)` (the
no-current-section fallback). -/
def sortByRelevance (l : List PySection) : List PySection :=
  l.insertionSort (fun a b => b.relevance_score.getD 0 ≤ a.relevance_score.getD 0)

/-- Passes 2–4 of `find_related_sections`: the selection of up to `limit`
candidate sections. -/
def selectRelated (sc : ScoringModule) (current_page : ℕ) (current_section : String)
    (persona job : String) (all_sections filtered : List PySection) (limit : ℕ) :
    List PySection :=
  if current_section ≠ "" then
    diversify limit
      (sortByContextual
        (contextualize sc current_page current_section persona job all_sections filtered))
  else
    (sortByRelevance filtered).take limit

/-! ### `document_intelligence.py`: relevance explanations and output

Python set operations (`&`, `|`, `list(s)[:k]`) on keyword sets are
determinized: intersection keeps the order of the left operand, union is
first-occurrence order. -/

/-- Intersection of keyword sets, left-operand order. -/
def kwInter (a b : List String) : List String :=
  a.dedup.filter (fun w => w ∈ b)

/-- Union of keyword sets, first-occurrence order. -/
def kwUnion (a b : List String) : List String :=
  (a ++ b).dedup

/-- Python `", ".join(terms)`. -/
def joinComma (terms : List String) : String :=
  String.intercalate ", " terms

/-- Source `generate_relevance_explanation` (the fallback method). -/
def generate_relevance_explanation (sc : ScoringModule) (sec : PySection)
    (persona job : String) : String :=
  let section_text := sec.text.getD ""
  let section_title := sec.section_title.getD ""
  let persona_keywords := sc.keyword_set persona
  let job_keywords := sc.keyword_set job
  let section_keywords := sc.keyword_set (section_text ++ " " ++ section_title)
  let common_persona := kwInter persona_keywords section_keywords
  let common_job := kwInter job_keywords section_keywords
  if common_persona ≠ [] ∧ common_job ≠ [] then
    "Contains relevant information about " ++ joinComma (common_persona.take 2) ++
      " related to your " ++ job.toLower ++ "."
  else if common_persona ≠ [] then
    "Discusses " ++ joinComma (common_persona.take 2) ++
      " which aligns with your role as " ++ persona.toLower ++ "."
  else if common_job ≠ [] then
    "Provides insights relevant to " ++ joinComma (common_job.take 2) ++
      " for your task."
  else
    "Contains complementary information that may support your understanding."

/-- Source `generate_enhanced_relevance_explanation`.  The computed
`relationship_type` local of the source is dead code (never used) and is
omitted. -/
def generate_enhanced_relevance_explanation (sc : ScoringModule) (sec : PySection)
    (current_section persona job : String) : String :=
  let section_text := sec.text.getD ""
  let section_title := sec.section_title.getD ""
  let document := sec.document.getD "Unknown Document"
  let relevance_score := sec.contextual_score.getD (sec.relevance_score.getD 0)
  let persona_keywords := sc.keyword_set persona
  let job_keywords := sc.keyword_set job
  let current_keywords := if current_section ≠ "" then sc.keyword_set current_section else []
  let section_keywords := sc.keyword_set (section_text ++ " " ++ section_title)
  let common_persona := kwInter persona_keywords section_keywords
  let common_job := kwInter job_keywords section_keywords
  let common_current := kwInter current_keywords section_keywords
  let parts1 : List String :=
    if common_persona ≠ [] ∧ common_job ≠ [] then
      ["Addresses " ++ joinComma ((kwUnion common_persona common_job).take 3) ++
        " directly relevant to your role and objectives"]
    else if common_current ≠ [] ∧ 2 ≤ common_current.length then
      ["Builds upon concepts like " ++ joinComma (common_current.take 2) ++
        " from your current reading"]
    else if common_persona ≠ [] then
      ["Contains insights about " ++ joinComma (common_persona.take 2) ++
        " relevant to your " ++ persona.toLower ++ " role"]
    else if common_job ≠ [] then
      ["Provides information about " ++ joinComma (common_job.take 2) ++
        " for your " ++ job.toLower]
    else []
  let parts2 :=
    if document ≠ "" ∧ current_section ≠ "" ∧
        ¬ strContains document.toLower "current document" = true then
      parts1 ++ ["from " ++ document]
    else parts1
  let parts3 :=
    if relevance_score > 7/10 then parts2 ++ ["with high contextual relevance"]
    else if relevance_score > 5/10 then parts2 ++ ["with moderate contextual relevance"]
    else parts2
  if parts3 ≠ [] then
    let explanation := pyCapitalize (String.intercalate " " parts3)
    if ¬ explanation.endsWith "." then explanation ++ "." else explanation
  else
    generate_relevance_explanation sc sec persona job

/-- One record of the `related` output list of `find_related_sections`. -/
structure RelatedSection where
  document : String
  section_title : String
  page_number : ℕ
  relevance_score : ℚ
  explanation : String
deriving DecidableEq, Repr

/-- Pass 5: the output record built for one selected section. -/
def relatedOf (sc : ScoringModule) (current_section persona job : String)
    (sec : PySection) : RelatedSection :=
  { document := sec.document.getD "Unknown Document"
    section_title := sec.section_title.getD "Unknown Section"
    page_number := sec.page_number.getD 1
    relevance_score := sec.contextual_score.getD (sec.relevance_score.getD 0)
    explanation := generate_enhanced_relevance_explanation sc sec current_section persona job }

/-- Source `find_related_sections(current_page, current_section, persona, job,
all_sections, limit=3)`. -/
def find_related_sections (sc : ScoringModule) (current_page : ℕ)
    (current_section persona job : String) (all_sections : List PySection)
    (limit : ℕ := 3) : List RelatedSection :=
  if all_sections = [] then []
  else
    let filtered := all_sections.filter (fun s => pageKey s ≠ current_page)
    if filtered = [] then []
    else
      (selectRelated sc current_page current_section persona job all_sections
          filtered limit).map
        (relatedOf sc current_section persona job)

/-! ### Spec-modelled combined scorer (§4.4)

The `scoring` module itself is not among the sources; only its interface is
visible from `document_intelligence.py`. -/

/-- Modelled from the spec: the repository's `scoring.combined_scores` is in
the missing `scoring` module; per §4.4 the score of one section combines an
exact term-frequency signal over the query terms with a keyword-overlap
component between the query's keyword set and the section's text, as a
weighted blend (weights 1 and 1 here, an implementation choice the spec
leaves open). -/
def spec_combined_score (query : String) (kw : List String)
    (heading text : String) : ℚ :=
  ((((pyWords query).map (fun t =>
      ((pyWords (heading ++ " " ++ text)).filter (fun w => w = t)).length)).sum : ℕ) : ℚ)
    + (((kw.dedup.filter (fun k2 => k2 ∈ pyWords (heading ++ " " ++ text))).length : ℕ) : ℚ)

/-! ### Spec-side section pages (§4.3/§3)

For comparing `build_sections_from_blocks` against the spec's description of
the representative page, the expected pages are computed by an independent
scan: one entry per `HEADING` block, the minimum of the heading's own page
and the pages of the following `BODY` blocks up to the next heading. -/

/-- Pages of the `BODY` blocks before the next `HEADING` block
(`TITLE` blocks are skipped). -/
def bodyPagesUntilNextHeading : List LineBlock → List ℕ
  | [] => []
  | b :: bs =>
    if b.tag = "TITLE" then bodyPagesUntilNextHeading bs
    else if b.tag = "HEADING" then []
    else b.page :: bodyPagesUntilNextHeading bs

/-- Expected representative page of every section, in document order: for each
`HEADING` block, the minimum over its own page and its body pages. -/
def spec_section_pages : List LineBlock → List ℕ
  | [] => []
  | b :: bs =>
    if b.tag = "TITLE" then spec_section_pages bs
    else if b.tag = "HEADING" then
      List.foldl min b.page (bodyPagesUntilNextHeading bs) :: spec_section_pages bs
    else spec_section_pages bs

/-! ### Concrete instances for witnesses and counterexamples -/

/-- Scoring module giving every section the score `1` (keyword sets empty). -/
def constScoring : ScoringModule :=
  { build_query := fun p j => p ++ " " ++ j
    build_keywords := fun _ _ => []
    keyword_set := fun _ => []
    combined_scores := fun _ hs _ _ => hs.map (fun _ => (1 : ℚ))
    scores_length := by intro q hs ts kw; simp }

/-- Scoring module reading the score off the section title, used to exhibit
candidates from documents A, A, A, B, B, C whose boosted scores are in that
descending order. -/
def divScoring : ScoringModule :=
  { build_query := fun p j => p ++ " " ++ j
    build_keywords := fun _ _ => []
    keyword_set := fun _ => []
    combined_scores := fun _ hs _ _ => hs.map (fun h =>
      if h = "a one" then 6 else if h = "a two" then 5
      else if h = "a three" then 4 else if h = "b one" then 3
      else if h = "b two" then 2 else if h = "c one" then 1 else 0)
    scores_length := by intro q hs ts kw; simp }

/-- Six candidate sections from documents A, A, A, B, B, C, none on page 1,
with no importance ranks and no key-indicator titles (so no contextual boost
applies). -/
def divSections : List PySection :=
  [⟨some "A", some "a one", some 2, none, none, none, none, none⟩,
   ⟨some "A", some "a two", some 3, none, none, none, none, none⟩,
   ⟨some "A", some "a three", some 4, none, none, none, none, none⟩,
   ⟨some "B", some "b one", some 5, none, none, none, none, none⟩,
   ⟨some "B", some "b two", some 6, none, none, none, none, none⟩,
   ⟨some "C", some "c one", some 7, none, none, none, none, none⟩]

/-- Two sections for the `find_related_sections` witness: one on page 2, one
on the current page 1. -/
def pyA : PySection := ⟨some "A", some "T A", some 2, none, none, none, none, none⟩

/-- Companion section on page 1 (see `pyA`). -/
def pyB : PySection := ⟨some "B", some "T B", some 1, none, none, none, none, none⟩

/-- The output record `find_related_sections` produces for `pyA` with the
constant scorer and no current-section text. -/
def relA : RelatedSection :=
  ⟨"A", "T A", 2, 0,
    "Contains complementary information that may support your understanding."⟩

/-- Raw line whose text is a bullet item. -/
def bulletRaw : List RawLine := [⟨"• item", 1, ⟨0, 0, 10, 10⟩, false, 10⟩]

/-- The tagged block `extract_outline_blocks` produces for `bulletRaw`. -/
def bulletBlock : LineBlock := ⟨"• item", 1, ⟨0, 0, 10, 10⟩, 10, false, 0, 0, "BODY"⟩

/-- Raw lines with an all-caps page-1 title line, a smaller all-caps page-1
line, and a body line. -/
def titleRaw : List RawLine :=
  [⟨"TITLE LINE", 1, ⟨0, 50, 100, 60⟩, true, 20⟩,
   ⟨"CAPS TWO", 1, ⟨0, 90, 100, 95⟩, false, 15⟩,
   ⟨"body text here", 1, ⟨0, 120, 100, 130⟩, false, 10⟩]

/-- The expected title block for `titleRaw`. -/
def titleT : LineBlock := ⟨"TITLE LINE", 1, ⟨0, 50, 100, 60⟩, 20, true, 1, 0, "TITLE"⟩

/-- The expected tagged block for the second line of `titleRaw`. -/
def caps2T : LineBlock := ⟨"CAPS TWO", 1, ⟨0, 90, 100, 95⟩, 15, false, 1, 1, "HEADING"⟩

/-- Tagged blocks with two headings and one body line, for the section-builder
witnesses. -/
def c3Blocks : List LineBlock :=
  [⟨"Intro", 1, ⟨0, 0, 1, 1⟩, 12, true, 1/5, 0, "HEADING"⟩,
   ⟨"some body", 1, ⟨0, 2, 1, 3⟩, 10, false, 0, 1, "BODY"⟩,
   ⟨"Methods", 2, ⟨0, 0, 1, 1⟩, 12, true, 1/7, 0, "HEADING"⟩]

/-- Heading block on page 1 whose only body line is on page 2: the
representative page the source computes is 1, not the body-line minimum 2. -/
def pageHeadingBlock : LineBlock := ⟨"Heading", 1, ⟨0, 0, 1, 1⟩, 12, false, 1/7, 0, "HEADING"⟩

/-- Body block on page 2 (see `pageHeadingBlock`). -/
def pageBodyBlock : LineBlock := ⟨"Body", 2, ⟨0, 0, 1, 1⟩, 10, false, 1/4, 1, "BODY"⟩

/-- Two sections used by the ranking stability witness. -/
def stabSections : List SecRec :=
  [⟨"d", "h1", 1, "t1"⟩, ⟨"d", "h2", 2, "t2"⟩]

/-- The scored records `constScoring` produces for `stabSections`. -/
def stabX : RankedSection := ⟨"d", "h1", 1, "t1", 1, 0⟩

/-- Second scored record (see `stabX`). -/
def stabY : RankedSection := ⟨"d", "h2", 2, "t2", 1, 0⟩

/-! ### Lemmas and claim theorems -/

/-- Helper: `_score_line` returns `-5.0` on any bullet line, whatever the
other scoring inputs are. -/
theorem score_line_eq_neg_five (t : String) (hb : is_bullet t = true)
    (caps : ℚ) (fr : ℕ) (bold : Bool) (gap : ℚ) :
    score_line t caps fr bold gap = -5 := by
  unfold score_line
  simp [hb]

/-- Helper: a block of the `extract_outline_blocks` output whose text is a
bullet is never tagged `HEADING` (its score is `-5`, and the possible `TITLE`
overwrite is not `HEADING` either). -/
theorem tag_ne_heading_of_bullet (raw : List RawLine) (b : LineBlock)
    (hb : b ∈ (extract_outline_blocks raw).2) (hbul : is_bullet b.text = true) :
    b.tag ≠ "HEADING" := by
  unfold extract_outline_blocks at hb
  by_cases hraw : raw = []
  · simp [hraw] at hb
  · simp only [if_neg hraw] at hb
    obtain ⟨ib, hib, rfl⟩ := List.mem_map.1 hb
    have hbul2 : is_bullet ib.2.text = true := hbul
    show finalTag _ _ ib.1 ib.2 ≠ "HEADING"
    unfold finalTag
    split
    · decide
    · split
      · next h =>
        rw [score_line_eq_neg_five ib.2.text hbul2] at h
        exact absurd h (by norm_num [MIN_HEADING_SCORE])
      · decide

/-- C10: for every line whose text, after left-stripping whitespace, begins
with one of the single characters `•`, `-`, `–`, `*`, `·`, `o`, `●`, `◦` —
including ordinary words that merely start with a lowercase letter `o` or a
hyphen, with no following-space requirement — `_is_bullet` returns `True`,
`_score_line` therefore returns `-5.0` for every combination of the other
scoring inputs, and such a line is never tagged `HEADING` by
`extract_outline_blocks`. -/
theorem bullet_start_char_forces_bullet (t : String) (c : Char) (rest : List Char)
    (hc : (pyLstrip t).toList = c :: rest) (hmem : c ∈ BULLET_START_TOKENS) :
    is_bullet t = true ∧
    (∀ (caps : ℚ) (fr : ℕ) (bold : Bool) (gap : ℚ),
      score_line t caps fr bold gap = -5) ∧
    (∀ (raw : List RawLine) (b : LineBlock), b ∈ (extract_outline_blocks raw).2 →
      b.text = t → b.tag ≠ "HEADING") := by
  have hbul : is_bullet t = true := by
    simp only [is_bullet, hc]
    simp [hmem]
  refine ⟨hbul, fun caps fr bold gap => score_line_eq_neg_five t hbul caps fr bold gap,
    fun raw b hb htx => tag_ne_heading_of_bullet raw b hb (htx ▸ hbul)⟩

/-- Witness for C10 at the word "overview". -/
theorem bullet_start_char_forces_bullet_witness :
    is_bullet "overview" = true ∧ score_line "overview" 0 0 false 0 = -5 := by
  have h := bullet_start_char_forces_bullet "overview" 'o' "verview".toList
    (by decide) (by decide)
  exact ⟨h.1, h.2.1 0 0 false 0⟩

/-- C7: a line classified as a bullet by `_is_bullet` (leading bullet glyph
or numbered "N." / "N)" prefix) is never tagged `HEADING` by
`extract_outline_blocks`, regardless of font rank, boldness, capitalization,
gap or any other scoring input. -/
theorem bullet_line_never_heading (raw : List RawLine) (b : LineBlock)
    (hb : b ∈ (extract_outline_blocks raw).2) (hbul : is_bullet b.text = true) :
    b.tag ≠ "HEADING" :=
  tag_ne_heading_of_bullet raw b hb hbul

/-- Witness for C7 on a one-line document whose line is "• item". -/
theorem bullet_line_never_heading_witness : bulletBlock.tag ≠ "HEADING" :=
  bullet_line_never_heading bulletRaw bulletBlock (by decide) (by decide)



/-- Page-1 high-caps qualification tested by the title-selection loop. -/
def titleQualifies (b : LineBlock) : Prop :=
  b.page = 1 ∧ b.caps_ratio > 7/10

instance (b : LineBlock) : Decidable (titleQualifies b) := by
  unfold titleQualifies; infer_instance

/-- Helper: a candidate already selected survives the rest of the fold with a
font size at least as large. -/
theorem titleFold_mono (l : List (ℕ × LineBlock)) :
    ∀ (a : ℕ × LineBlock), ∃ r, List.foldl titleStep (some a) l = some r ∧
      a.2.font_size ≤ r.2.font_size := by
  induction l with
  | nil => exact fun a => ⟨a, rfl, le_refl _⟩
  | cons ib rest ih =>
    intro a
    show ∃ r, List.foldl titleStep (titleStep (some a) ib) rest = some r ∧ _
    unfold titleStep
    split
    · next h =>
      obtain ⟨r, hr, hle⟩ := ih ib
      refine ⟨r, hr, le_trans ?_ hle⟩
      have := h.2.2
      simp only [titleBeats, decide_eq_true_eq] at this
      exact le_of_lt this
    · exact ih a

/-- Helper: the fold result dominates the font size of every qualifying
element of the scanned list. -/
theorem titleFold_dom (l : List (ℕ × LineBlock)) :
    ∀ (acc : Option (ℕ × LineBlock)) (r : ℕ × LineBlock),
      List.foldl titleStep acc l = some r →
      ∀ ib ∈ l, titleQualifies ib.2 → ib.2.font_size ≤ r.2.font_size := by
  induction l with
  | nil => intro acc r _ ib hib; exact absurd hib (List.not_mem_nil ib)
  | cons b rest ih =>
    intro acc r hr ib hib hq
    rw [List.foldl_cons] at hr
    rcases List.mem_cons.1 hib with rfl | hmem
    · by_cases hcond : ib.2.page = 1 ∧ ib.2.caps_ratio > 7/10 ∧ titleBeats acc ib.2 = true
      · have hstep : titleStep acc ib = some ib := by unfold titleStep; rw [if_pos hcond]
        rw [hstep] at hr
        obtain ⟨r2, hr2, hle⟩ := titleFold_mono rest ib
        rw [hr] at hr2
        cases hr2
        exact hle
      · have hbeats : titleBeats acc ib.2 = false := by
          rcases Bool.eq_false_or_eq_true (titleBeats acc ib.2) with h | h
          · exact absurd ⟨hq.1, hq.2, h⟩ hcond
          · exact h
        obtain ⟨tb, rfl⟩ : ∃ tb, acc = some tb := by
          cases acc with
          | none => simp [titleBeats] at hbeats
          | some tb => exact ⟨tb, rfl⟩
        have hle : ib.2.font_size ≤ tb.2.font_size := by
          simp only [titleBeats, decide_eq_true_eq] at hbeats
          exact le_of_not_lt (by simpa using hbeats)
        have hstep : titleStep (some tb) ib = some tb := by
          unfold titleStep
          rw [if_neg]
          intro hc
          exact hcond ⟨hc.1, hc.2.1, hc.2.2⟩
        rw [hstep] at hr
        obtain ⟨r2, hr2, hle2⟩ := titleFold_mono rest tb
        rw [hr] at hr2
        cases hr2
        exact le_trans hle hle2
    · exact ih (titleStep acc b) r hr ib hmem hq

/-- Helper: the fold result is the initial candidate or a qualifying element
of the scanned list. -/
theorem titleFold_src (l : List (ℕ × LineBlock)) :
    ∀ (acc : Option (ℕ × LineBlock)) (r : ℕ × LineBlock),
      List.foldl titleStep acc l = some r →
      acc = some r ∨ (r ∈ l ∧ titleQualifies r.2) := by
  induction l with
  | nil => intro acc r hr; exact Or.inl hr
  | cons b rest ih =>
    intro acc r hr
    rw [List.foldl_cons] at hr
    rcases ih (titleStep acc b) r hr with hacc | ⟨hmem, hq⟩
    · unfold titleStep at hacc
      split at hacc
      · next h =>
        cases hacc
        exact Or.inr ⟨List.mem_cons_self _ _, h.1, h.2.1⟩
      · exact Or.inl hacc
    · exact Or.inr ⟨List.mem_cons_of_mem b hmem, hq⟩

/-- Helper: a list of indexed pairs with distinct indices has at most one
entry with a given index. -/
theorem filter_fst_eq_length_le_one (j : ℕ) :
    ∀ (l : List (ℕ × LineBlock)), (l.map Prod.fst).Nodup →
      (l.filter (fun ib => ib.1 = j)).length ≤ 1 := by
  intro l
  induction l with
  | nil => intro _; simp
  | cons a rest ih =>
    intro hnd
    rw [List.map_cons, List.nodup_cons] at hnd
    by_cases ha : a.1 = j
    · rw [List.filter_cons_of_pos (by simpa using ha)]
      have hrest : rest.filter (fun ib => ib.1 = j) = [] := by
        rw [List.filter_eq_nil_iff]
        intro x hx hxj
        refine hnd.1 ?_
        have hxj2 : x.1 = j := by simpa using hxj
        rw [ha, ← hxj2]
        exact List.mem_map_of_mem Prod.fst hx
      rw [hrest]
      simp
    · rw [List.filter_cons_of_neg (by simpa using ha)]
      exact ih hnd.2

/-- Helper: the final tag equals `TITLE` exactly for the title index. -/
theorem finalTag_eq_title_iff (blocks : List LineBlock) (tIdx : Option ℕ)
    (i : ℕ) (b : LineBlock) :
    (finalTag blocks tIdx i b = "TITLE") ↔ tIdx = some i := by
  unfold finalTag
  split
  · next h => simp [h]
  · next h =>
    split
    · simp only [show ("HEADING" = "TITLE") ↔ False by simp, false_iff]
      exact h
    · simp only [show ("BODY" = "TITLE") ↔ False by simp, false_iff]
      exact h

/-- Helper: the tagging pass marks at most one block `TITLE`. -/
theorem taggedBlocks_title_count (blocks : List LineBlock) :
    ((taggedBlocks blocks).filter (fun b => b.tag = "TITLE")).length ≤ 1 := by
  unfold taggedBlocks
  rw [List.filter_map, List.length_map]
  have hcong : blocks.enum.filter ((fun b => decide (LineBlock.tag b = "TITLE")) ∘
        (fun ib : ℕ × LineBlock => ({ ib.2 with tag := (finalTag blocks
          ((titleChoice blocks).map Prod.fst) ib.1 ib.2) } : LineBlock)))
      = blocks.enum.filter
        (fun ib : ℕ × LineBlock => (titleChoice blocks).map Prod.fst = some ib.1) := by
    apply List.filter_congr
    intro ib _
    simp only [Function.comp_apply, decide_eq_decide]
    exact finalTag_eq_title_iff _ _ ib.1 ib.2
  rw [hcong]
  cases hT : (titleChoice blocks).map Prod.fst with
  | none =>
    rw [List.filter_eq_nil_iff.2 (fun ib _ => by simp)]
    simp
  | some j =>
    have : blocks.enum.filter (fun ib : ℕ × LineBlock => (some j : Option ℕ) = some ib.1)
        = blocks.enum.filter (fun ib : ℕ × LineBlock => ib.1 = j) := by
      apply List.filter_congr
      intro ib _
      simp [eq_comm]
    rw [this]
    apply filter_fst_eq_length_le_one
    rw [List.enum_map_fst]
    exact List.nodup_range _

/-- C6: for every document processed by `extract_outline_blocks`, at most one
block of the output is tagged `TITLE`, and when a title exists it is one of
the output blocks, lies on page 1 with uppercase ratio above `0.7`, and has
the largest font size among all output blocks on page 1 with uppercase ratio
above `0.7`. -/
theorem at_most_one_title (raw : List RawLine) :
    ((extract_outline_blocks raw).2.filter (fun b => b.tag = "TITLE")).length ≤ 1 ∧
    ∀ t, (extract_outline_blocks raw).1 = some t →
      t ∈ (extract_outline_blocks raw).2 ∧ t.tag = "TITLE" ∧ t.page = 1 ∧
      t.caps_ratio > 7/10 ∧
      ∀ b ∈ (extract_outline_blocks raw).2, b.page = 1 → b.caps_ratio > 7/10 →
        b.font_size ≤ t.font_size := by
  by_cases hraw : raw = []
  · subst hraw
    refine ⟨by simp [extract_outline_blocks], ?_⟩
    intro t ht
    simp [extract_outline_blocks] at ht
  · have hfst : (extract_outline_blocks raw).1 =
        (titleChoice (raw.map (mkLineBlock raw))).map
          (fun tb => { tb.2 with tag := "TITLE" }) := by
      unfold extract_outline_blocks
      rw [if_neg hraw]
    have hsnd : (extract_outline_blocks raw).2 =
        taggedBlocks (raw.map (mkLineBlock raw)) := by
      unfold extract_outline_blocks
      rw [if_neg hraw]
    refine ⟨hsnd ▸ taggedBlocks_title_count _, ?_⟩
    intro t ht
    rw [hfst] at ht
    obtain ⟨tb, htb, rfl⟩ := Option.map_eq_some'.1 ht
    have hq : tb ∈ (raw.map (mkLineBlock raw)).enum ∧ titleQualifies tb.2 := by
      rcases titleFold_src _ none tb htb with h | h
      · exact absurd h (by simp)
      · exact h
    refine ⟨?_, rfl, hq.2.1, hq.2.2, ?_⟩
    · rw [hsnd]
      unfold taggedBlocks
      refine List.mem_map.2 ⟨tb, hq.1, ?_⟩
      have hidx : (titleChoice (raw.map (mkLineBlock raw))).map Prod.fst = some tb.1 := by
        rw [htb]
        rfl
      rw [show finalTag (raw.map (mkLineBlock raw))
          ((titleChoice (raw.map (mkLineBlock raw))).map Prod.fst) tb.1 tb.2 = "TITLE" from
        (finalTag_eq_title_iff _ _ tb.1 tb.2).2 hidx]
    · intro b hb hpage hcaps
      rw [hsnd] at hb
      unfold taggedBlocks at hb
      obtain ⟨ib, hib, rfl⟩ := List.mem_map.1 hb
      exact titleFold_dom _ none tb htb ib hib ⟨hpage, hcaps⟩

/-- Witness for C6 on `titleRaw`: the title is the 20pt all-caps line, and the
15pt all-caps page-1 line has a smaller font size. -/
theorem at_most_one_title_witness :
    titleT.tag = "TITLE" ∧ titleT.page = 1 ∧ caps2T.font_size ≤ titleT.font_size := by
  obtain ⟨-, h⟩ := at_most_one_title titleRaw
  obtain ⟨-, h1, h2, -, h4⟩ := h titleT (by decide)
  exact ⟨h1, h2, h4 caps2T (by with_unfolding_all decide) (by decide) (by decide)⟩

/-- Heading text of the pending section, as a list. -/
def optHeadText : Option LineBlock → List String
  | none => []
  | some h => [h.text]

/-- Helper: the scan loop emits one section per `HEADING` block, in order,
headed by the pending heading if one is open. -/
theorem buildLoop_map_heading (d : String) :
    ∀ (bs : List LineBlock) (ch : Option LineBlock) (ct : List String) (cp : Finset ℕ),
      (buildLoop d bs ch ct cp).map SecRec.heading
        = optHeadText ch ++ (bs.filter (fun b => b.tag = "HEADING")).map LineBlock.text := by
  intro bs
  induction bs with
  | nil =>
    intro ch ct cp
    cases ch <;> simp [buildLoop, flushSection, optHeadText]
  | cons b rest ih =>
    intro ch ct cp
    unfold buildLoop
    by_cases hT : b.tag = "TITLE"
    · rw [if_pos hT, ih, List.filter_cons_of_neg (by simp [hT])]
    · rw [if_neg hT]
      by_cases hH : b.tag = "HEADING"
      · rw [if_pos hH, List.map_append, ih, List.filter_cons_of_pos (by simp [hH])]
        cases ch <;> simp [flushSection, optHeadText]
      · rw [if_neg hH]
        cases ch with
        | none => rw [ih, List.filter_cons_of_neg (by simp [hH])]
        | some h => rw [ih, List.filter_cons_of_neg (by simp [hH])]

/-- C3: for every document whose tagged block list has at least one
`HEADING`-tagged line, `build_sections_from_blocks` returns exactly one
section per `HEADING` line, the section headings are the heading texts in
document order, and in particular the section count equals the heading
count. -/
theorem sections_match_headings (title_block : Option LineBlock)
    (blocks : List LineBlock) (doc_name : String)
    (h : blocks.filter (fun b => b.tag = "HEADING") ≠ []) :
    (build_sections_from_blocks title_block blocks doc_name).map SecRec.heading
      = (blocks.filter (fun b => b.tag = "HEADING")).map LineBlock.text ∧
    (build_sections_from_blocks title_block blocks doc_name).length
      = (blocks.filter (fun b => b.tag = "HEADING")).length := by
  have hmap := buildLoop_map_heading doc_name blocks none [] ∅
  rw [show optHeadText none = [] from rfl, List.nil_append] at hmap
  have hne : buildLoop doc_name blocks none [] ∅ ≠ [] := by
    intro h0
    rw [h0] at hmap
    exact h (List.map_eq_nil_iff.1 hmap.symm)
  have hval : build_sections_from_blocks title_block blocks doc_name
      = buildLoop doc_name blocks none [] ∅ := by
    unfold build_sections_from_blocks
    simp only [if_neg hne]
  rw [hval, hmap]
  refine ⟨rfl, ?_⟩
  have := congrArg List.length hmap
  simpa using this

/-- Witness for C3 on `c3Blocks` (two headings, one body line). -/
theorem sections_match_headings_witness :
    (build_sections_from_blocks none c3Blocks "d").map SecRec.heading
      = (c3Blocks.filter (fun b => b.tag = "HEADING")).map LineBlock.text ∧
    (build_sections_from_blocks none c3Blocks "d").length
      = (c3Blocks.filter (fun b => b.tag = "HEADING")).length :=
  sections_match_headings none c3Blocks "d" (by decide)

/-- Unfolding lemma: a `TITLE` block contributes no body page. -/
theorem bodyPages_cons_title (b : LineBlock) (bs : List LineBlock) (hT : b.tag = "TITLE") :
    bodyPagesUntilNextHeading (b :: bs) = bodyPagesUntilNextHeading bs := by
  simp only [bodyPagesUntilNextHeading]
  rw [if_pos hT]

/-- Unfolding lemma: a `HEADING` block ends the body-page scan. -/
theorem bodyPages_cons_heading (b : LineBlock) (bs : List LineBlock)
    (hT : ¬ b.tag = "TITLE") (hH : b.tag = "HEADING") :
    bodyPagesUntilNextHeading (b :: bs) = [] := by
  simp only [bodyPagesUntilNextHeading]
  rw [if_neg hT, if_pos hH]

/-- Unfolding lemma: a body block contributes its page. -/
theorem bodyPages_cons_body (b : LineBlock) (bs : List LineBlock)
    (hT : ¬ b.tag = "TITLE") (hH : ¬ b.tag = "HEADING") :
    bodyPagesUntilNextHeading (b :: bs) = b.page :: bodyPagesUntilNextHeading bs := by
  simp only [bodyPagesUntilNextHeading]
  rw [if_neg hT, if_neg hH]

/-- Unfolding lemma: a `TITLE` block yields no expected section page. -/
theorem specPages_cons_title (b : LineBlock) (bs : List LineBlock) (hT : b.tag = "TITLE") :
    spec_section_pages (b :: bs) = spec_section_pages bs := by
  simp only [spec_section_pages]
  rw [if_pos hT]

/-- Unfolding lemma: a `HEADING` block yields its section's expected page. -/
theorem specPages_cons_heading (b : LineBlock) (bs : List LineBlock)
    (hT : ¬ b.tag = "TITLE") (hH : b.tag = "HEADING") :
    spec_section_pages (b :: bs)
      = List.foldl min b.page (bodyPagesUntilNextHeading bs) :: spec_section_pages bs := by
  simp only [spec_section_pages]
  rw [if_neg hT, if_pos hH]

/-- Unfolding lemma: a body block yields no expected section page. -/
theorem specPages_cons_body (b : LineBlock) (bs : List LineBlock)
    (hT : ¬ b.tag = "TITLE") (hH : ¬ b.tag = "HEADING") :
    spec_section_pages (b :: bs) = spec_section_pages bs := by
  simp only [spec_section_pages]
  rw [if_neg hT, if_neg hH]

/-- Helper: with an open section, the scan loop's first emitted page is the
minimum of the accumulated page set and the following body pages. -/
theorem buildLoop_pages_some (d : String) :
    ∀ (bs : List LineBlock) (h : LineBlock) (ct : List String) (cp : Finset ℕ)
      (hne : cp.Nonempty),
      (buildLoop d bs (some h) ct cp).map SecRec.page
        = List.foldl min (cp.min' hne) (bodyPagesUntilNextHeading bs)
            :: spec_section_pages bs := by
  intro bs
  induction bs with
  | nil =>
    intro h ct cp hne
    simp [buildLoop, flushSection, bodyPagesUntilNextHeading, spec_section_pages, dif_pos hne]
  | cons b rest ih =>
    intro h ct cp hne
    unfold buildLoop
    by_cases hT : b.tag = "TITLE"
    · rw [if_pos hT, ih _ _ _ hne, bodyPages_cons_title b rest hT,
        specPages_cons_title b rest hT]
    · rw [if_neg hT]
      by_cases hH : b.tag = "HEADING"
      · rw [if_pos hH, List.map_append,
          ih b [] {b.page} (Finset.singleton_nonempty _), Finset.min'_singleton,
          bodyPages_cons_heading b rest hT hH, specPages_cons_heading b rest hT hH]
        simp [flushSection, dif_pos hne]
      · rw [if_neg hH]
        show (buildLoop d rest (some h) (ct ++ [b.text]) (insert b.page cp)).map SecRec.page = _
        rw [ih h (ct ++ [b.text]) (insert b.page cp) (Finset.insert_nonempty _ _),
          Finset.min'_insert, bodyPages_cons_body b rest hT hH,
          specPages_cons_body b rest hT hH, List.foldl_cons]

/-- Helper: with no open section, the scan loop's pages are exactly the
spec-side expected pages. -/
theorem buildLoop_pages_none (d : String) :
    ∀ (bs : List LineBlock) (ct : List String) (cp : Finset ℕ),
      (buildLoop d bs none ct cp).map SecRec.page = spec_section_pages bs := by
  intro bs
  induction bs with
  | nil => intro ct cp; simp [buildLoop, flushSection, spec_section_pages]
  | cons b rest ih =>
    intro ct cp
    unfold buildLoop
    by_cases hT : b.tag = "TITLE"
    · rw [if_pos hT, ih, specPages_cons_title b rest hT]
    · rw [if_neg hT]
      by_cases hH : b.tag = "HEADING"
      · rw [if_pos hH]
        show ((flushSection d none ct cp) ++ _).map SecRec.page = _
        rw [show flushSection d none ct cp = [] from rfl, List.nil_append,
          buildLoop_pages_some d rest b [] {b.page} (Finset.singleton_nonempty _),
          Finset.min'_singleton, specPages_cons_heading b rest hT hH]
      · rw [if_neg hH]
        show (buildLoop d rest none ct cp).map SecRec.page = _
        rw [ih, specPages_cons_body b rest hT hH]

/-- C4 (amended): for documents with at least one heading, each section's
representative page is the minimum over the heading's own page and the pages
of its contributing body lines — not the body-line minimum alone: the source
seeds `current_pages` with the heading's page. -/
theorem section_pages_spec (title_block : Option LineBlock)
    (blocks : List LineBlock) (doc_name : String)
    (h : blocks.filter (fun b => b.tag = "HEADING") ≠ []) :
    (build_sections_from_blocks title_block blocks doc_name).map SecRec.page
      = spec_section_pages blocks := by
  have hmap := buildLoop_map_heading doc_name blocks none [] ∅
  rw [show optHeadText none = [] from rfl, List.nil_append] at hmap
  have hne : buildLoop doc_name blocks none [] ∅ ≠ [] := by
    intro h0
    rw [h0] at hmap
    exact h (List.map_eq_nil_iff.1 hmap.symm)
  have hval : build_sections_from_blocks title_block blocks doc_name
      = buildLoop doc_name blocks none [] ∅ := by
    unfold build_sections_from_blocks
    simp only [if_neg hne]
  rw [hval]
  exact buildLoop_pages_none doc_name blocks [] ∅

/-- Witness for the amended C4 on `c3Blocks`. -/
theorem section_pages_spec_witness :
    (build_sections_from_blocks none c3Blocks "d").map SecRec.page
      = spec_section_pages c3Blocks :=
  section_pages_spec none c3Blocks "d" (by decide)

/-- Counterexample for C4 as stated: a heading on page 1 whose only body line
is on page 2 yields a section with representative page 1, not the body-line
minimum 2. -/
theorem section_page_not_body_min :
    (build_sections_from_blocks none [pageHeadingBlock, pageBodyBlock] "doc.pdf").map
        SecRec.page = [1] ∧
    (([pageHeadingBlock, pageBodyBlock].filter (fun b => b.tag = "BODY")).map
        LineBlock.page = [2]) ∧ (1 : ℕ) ≠ 2 := by
  refine ⟨?_, by decide, by decide⟩
  decide

/-- C5 (amended): a document with zero extracted lines yields a `None` title
and an empty block list without error, hence an empty outline (no `HEADING`
blocks); downstream, `build_sections_from_blocks` then produces exactly one
whole-document fallback section (heading = document name, page 1, empty
body), not zero sections. -/
theorem empty_extraction_behaviour (doc_name : String) :
    extract_outline_blocks [] = (none, []) ∧
    (extract_outline_blocks []).2.filter (fun b => b.tag = "HEADING") = [] ∧
    build_sections_from_blocks none [] doc_name
      = [{ doc := doc_name, heading := doc_name, page := 1, text := "" }] := by
  refine ⟨by decide, by decide, ?_⟩
  unfold build_sections_from_blocks
  rw [show buildLoop doc_name [] none [] ∅ = [] from rfl, if_pos rfl]
  simp only [List.filter_nil, List.map_nil]
  rw [show (String.intercalate " " ([] : List String)).trim = "" from by
    with_unfolding_all decide]

/-- Counterexample for C5 as stated: on the empty extraction the downstream
section builder returns one fallback section, not zero. -/
theorem empty_extraction_not_zero_sections :
    extract_outline_blocks [] = (none, []) ∧
    (build_sections_from_blocks none [] "doc.pdf").length = 1 ∧ (1 : ℕ) ≠ 0 := by
  exact ⟨by decide, by decide, by decide⟩

/-- Helper: membership in an enumerated list projects to membership. -/
theorem snd_mem_of_mem_enumFrom {α : Type} :
    ∀ (l : List α) (m : ℕ) (q : ℕ × α), q ∈ List.enumFrom m l → q.2 ∈ l := by
  intro l
  induction l with
  | nil => intro m q hq; simp at hq
  | cons a rest ih =>
    intro m q hq
    rw [List.enumFrom_cons] at hq
    rcases List.mem_cons.1 hq with rfl | hmem
    · exact List.mem_cons_self _ _
    · exact List.mem_cons_of_mem _ (ih (m + 1) q hmem)

/-- Helper: pairwise relations survive enumeration. -/
theorem pairwise_enumFrom {α : Type} {R : α → α → Prop} :
    ∀ (l : List α) (n : ℕ), l.Pairwise R →
      (List.enumFrom n l).Pairwise (fun p q => R p.2 q.2) := by
  intro l
  induction l with
  | nil => intro n _; simp
  | cons a rest ih =>
    intro n hp
    rw [List.enumFrom_cons]
    rw [List.pairwise_cons] at hp ⊢
    exact ⟨fun q hq => hp.1 q.2 (snd_mem_of_mem_enumFrom rest (n + 1) q hq),
      ih (n + 1) hp.2⟩

/-- C8: `rank_sections` stable-sorts the scored sections in descending score
order (ties keep their pre-sort relative order), assigns `importance_rank`
1..N consecutively in that order, and the pipeline's top-K step selects
exactly the first `min(N, topk_sections)` ranked sections. -/
theorem rank_sections_sorted_stable (sc : ScoringModule) (persona job : String)
    (sections : List SecRec) (topk : ℕ) :
    ((rank_sections sc persona job sections).map
        (fun r => r.importance_rank) = List.range' 1 sections.length) ∧
    (rank_sections sc persona job sections).Pairwise (fun a b => b.score ≤ a.score) ∧
    (∀ x y, [x, y].Sublist (scored_sections sc persona job sections) →
      x.score = y.score →
      [x, y].Sublist (sort_by_score (scored_sections sc persona job sections))) ∧
    select_top (rank_sections sc persona job sections) topk
      = (rank_sections sc persona job sections).take topk ∧
    (select_top (rank_sections sc persona job sections) topk).length
      = min sections.length topk := by
  have hslen : (scored_sections sc persona job sections).length = sections.length := by
    unfold scored_sections
    rw [List.length_map, List.length_zip, sc.scores_length, List.length_map, Nat.min_self]
  have hsortlen : (sort_by_score (scored_sections sc persona job sections)).length
      = sections.length := by
    unfold sort_by_score
    rw [List.length_insertionSort, hslen]
  have hrlen : (rank_sections sc persona job sections).length = sections.length := by
    unfold rank_sections
    rw [List.length_map, List.enumFrom_length, hsortlen]
  refine ⟨?_, ?_, ?_, ?_, ?_⟩
  · unfold rank_sections
    rw [List.map_map]
    rw [show ((fun r : RankedSection => r.importance_rank) ∘
        (fun p : ℕ × RankedSection => { p.2 with importance_rank := p.1 })) = Prod.fst
      from rfl]
    rw [List.enumFrom_map_fst, hsortlen]
  · unfold rank_sections
    have hp : (List.enumFrom 1 (sort_by_score (scored_sections sc persona job sections))).Pairwise
        (fun p q : ℕ × RankedSection => q.2.score ≤ p.2.score) := by
      apply @pairwise_enumFrom RankedSection (fun a b => b.score ≤ a.score)
      unfold sort_by_score
      haveI htot : IsTotal RankedSection (fun a b => b.score ≤ a.score) :=
        ⟨fun a b => le_total b.score a.score⟩
      haveI htrans : IsTrans RankedSection (fun a b => b.score ≤ a.score) :=
        ⟨fun a b c h1 h2 => le_trans h2 h1⟩
      exact List.sorted_insertionSort _ _
    exact hp.map _ (fun p q h => h)
  · intro x y hsub heq
    unfold sort_by_score
    exact List.pair_sublist_insertionSort (le_of_eq heq.symm) hsub
  · unfold select_top
    rw [hrlen]
    rcases Nat.le_total sections.length topk with h | h
    · rw [Nat.min_eq_left h, List.take_of_length_le hrlen.le,
        List.take_of_length_le (hrlen.le.trans h)]
    · rw [Nat.min_eq_right h]
  · unfold select_top
    rw [List.length_take, hrlen]
    omega

/-- Witness for C8 with the constant scorer on two equal-score sections. -/
theorem rank_sections_sorted_stable_witness :
    ((rank_sections constScoring "p" "j" stabSections).map
        (fun r => r.importance_rank) = List.range' 1 stabSections.length) ∧
    [stabX, stabY].Sublist (sort_by_score (scored_sections constScoring "p" "j" stabSections)) := by
  obtain ⟨h1, -, h3, -, -⟩ := rank_sections_sorted_stable constScoring "p" "j" stabSections 5
  refine ⟨h1, h3 stabX stabY ?_ rfl⟩
  rw [show scored_sections constScoring "p" "j" stabSections = [stabX, stabY] from by decide]

/-- Helper: contextualization only rewrites `contextual_score`; every output
originates from a candidate with the same identifying fields. -/
theorem mem_contextualize (sc : ScoringModule) (current_page : ℕ)
    (current_section persona job : String) (all_sections filtered : List PySection)
    (x : PySection)
    (hx : x ∈ contextualize sc current_page current_section persona job all_sections filtered) :
    ∃ s ∈ filtered, x.document = s.document ∧ x.section_title = s.section_title ∧
      x.page_number = s.page_number ∧ x.page = s.page := by
  unfold contextualize at hx
  obtain ⟨p2, hp2, rfl⟩ := List.mem_map.1 hx
  exact ⟨p2.1, (List.of_mem_zip hp2).1, rfl, rfl, rfl, rfl⟩

/-- Helper: every element accumulated by the diversification fold comes from
the initial state or the scanned list. -/
theorem mem_diversify_fold (limit : ℕ) :
    ∀ (l : List PySection) (st : List PySection × List String) (x : PySection),
      x ∈ (List.foldl (diversifyStep limit) st l).1 → x ∈ st.1 ∨ x ∈ l := by
  intro l
  induction l with
  | nil => intro st x hx; exact Or.inl hx
  | cons a rest ih =>
    intro st x hx
    rw [List.foldl_cons] at hx
    rcases ih (diversifyStep limit st a) x hx with h | h
    · unfold diversifyStep at h
      split at h
      · rcases List.mem_append.1 h with h2 | h2
        · exact Or.inl h2
        · exact Or.inr (List.mem_cons.2 (Or.inl (List.mem_singleton.1 h2)))
      · split at h
        · rcases List.mem_append.1 h with h2 | h2
          · exact Or.inl h2
          · exact Or.inr (List.mem_cons.2 (Or.inl (List.mem_singleton.1 h2)))
        · exact Or.inl h
    · exact Or.inr (List.mem_cons_of_mem a h)

/-- Helper: every section selected by passes 2–4 originates from the filtered
candidate list, with the same identifying fields. -/
theorem mem_selectRelated (sc : ScoringModule) (current_page : ℕ)
    (current_section persona job : String) (all_sections filtered : List PySection)
    (limit : ℕ) (x : PySection)
    (hx : x ∈ selectRelated sc current_page current_section persona job all_sections
      filtered limit) :
    ∃ s ∈ filtered, x.document = s.document ∧ x.section_title = s.section_title ∧
      x.page_number = s.page_number ∧ x.page = s.page := by
  unfold selectRelated at hx
  split at hx
  · unfold diversify at hx
    have hx2 := List.mem_of_mem_take hx
    rcases mem_diversify_fold limit _ _ _ hx2 with h | h
    · simp at h
    · unfold sortByContextual at h
      rw [List.mem_insertionSort] at h
      exact mem_contextualize sc current_page current_section persona job
        all_sections filtered x h
  · have hx2 := List.mem_of_mem_take hx
    unfold sortByRelevance at hx2
    rw [List.mem_insertionSort] at hx2
    exact ⟨x, hx2, rfl, rfl, rfl, rfl⟩

/-- C2: every record returned by `find_related_sections` originates from an
input section whose page key differs from `current_page` (so, whenever every
input section carries an explicit `page_number`, no returned record reports
the current page); an empty input list, or an input whose sections are all on
the current page, yields the empty list rather than an error. -/
theorem related_sections_exclude_current_page (sc : ScoringModule) (current_page : ℕ)
    (current_section persona job : String) (all_sections : List PySection) (limit : ℕ) :
    (∀ r ∈ find_related_sections sc current_page current_section persona job
        all_sections limit,
      ∃ s ∈ all_sections, pageKey s ≠ current_page ∧
        r.page_number = s.page_number.getD 1 ∧
        r.document = s.document.getD "Unknown Document") ∧
    ((∀ s ∈ all_sections, s.page_number.isSome) →
      ∀ r ∈ find_related_sections sc current_page current_section persona job
        all_sections limit, r.page_number ≠ current_page) ∧
    (all_sections = [] → find_related_sections sc current_page current_section persona job
        all_sections limit = []) ∧
    ((∀ s ∈ all_sections, pageKey s = current_page) →
      find_related_sections sc current_page current_section persona job
        all_sections limit = []) := by
  have hmain : ∀ r ∈ find_related_sections sc current_page current_section persona job
      all_sections limit,
      ∃ s ∈ all_sections, pageKey s ≠ current_page ∧
        r.page_number = s.page_number.getD 1 ∧
        r.document = s.document.getD "Unknown Document" := by
    intro r hr
    unfold find_related_sections at hr
    by_cases hall : all_sections = []
    · rw [if_pos hall] at hr
      exact absurd hr (List.not_mem_nil r)
    · rw [if_neg hall] at hr
      by_cases hfil : all_sections.filter (fun s => pageKey s ≠ current_page) = []
      · rw [if_pos hfil] at hr
        exact absurd hr (List.not_mem_nil r)
      · rw [if_neg hfil] at hr
        obtain ⟨x, hxsel, rfl⟩ := List.mem_map.1 hr
        obtain ⟨s, hsfil, hdoc, htitle, hpn, hp⟩ := mem_selectRelated sc current_page
          current_section persona job all_sections _ limit x hxsel
        have hsmem := List.mem_filter.1 hsfil
        refine ⟨s, hsmem.1, by simpa using hsmem.2, ?_, ?_⟩
        · show x.page_number.getD 1 = s.page_number.getD 1
          rw [hpn]
        · show x.document.getD "Unknown Document" = s.document.getD "Unknown Document"
          rw [hdoc]
  refine ⟨hmain, ?_, ?_, ?_⟩
  · intro hsome r hr
    obtain ⟨s, hs, hneq, hpage, -⟩ := hmain r hr
    obtain ⟨n, hn⟩ := Option.isSome_iff_exists.1 (hsome s hs)
    have hkey : pageKey s = n := by unfold pageKey; rw [hn]; rfl
    rw [hpage, hn]
    show n ≠ current_page
    rw [← hkey]
    exact hneq
  · intro hall
    unfold find_related_sections
    rw [if_pos hall]
  · intro hpages
    unfold find_related_sections
    by_cases hall : all_sections = []
    · rw [if_pos hall]
    · rw [if_neg hall]
      have hfil : all_sections.filter (fun s => pageKey s ≠ current_page) = [] := by
        rw [List.filter_eq_nil_iff]
        intro s hs
        simp [hpages s hs]
      simp only [hfil, if_pos]

/-- Witness for C2: with two sections on pages 2 and 1 and current page 1,
the single returned record comes from the page-2 section. -/
theorem related_sections_exclude_current_page_witness :
    ∃ s ∈ [pyA, pyB], pageKey s ≠ 1 ∧ relA.page_number = s.page_number.getD 1 ∧
      relA.document = s.document.getD "Unknown Document" :=
  (related_sections_exclude_current_page constScoring 1 "" "p" "j" [pyA, pyB] 3).1
    relA (by decide)

/-- Helper: the diversification fold only ever appends, and while fewer than
`limit` sections are collected nothing is skipped, so its first `limit`
entries are the first `limit` candidates. -/
theorem diversify_fold_take (limit : ℕ) :
    ∀ (l : List PySection) (st : List PySection × List String),
      ((List.foldl (diversifyStep limit) st l).1).take limit = (st.1 ++ l).take limit := by
  intro l
  induction l with
  | nil =>
    intro st
    rw [List.append_nil]
    rfl
  | cons a rest ih =>
    intro st
    rw [List.foldl_cons, ih (diversifyStep limit st a)]
    unfold diversifyStep
    split
    · rw [show ((st.1 ++ [a], st.2.insert (a.document.getD "Unknown"))).1
          = st.1 ++ [a] from rfl,
        List.append_assoc, List.singleton_append]
    · next h =>
      split
      · rw [show ((st.1 ++ [a], st.2.insert (a.document.getD "Unknown"))).1
            = st.1 ++ [a] from rfl,
          List.append_assoc, List.singleton_append]
      · have hlen : limit ≤ st.1.length := Nat.le_of_not_lt h
        rw [List.take_append_of_le_length hlen, List.take_append_of_le_length hlen]

/-- Helper: the diversified list truncated to `limit` is exactly the first
`limit` score-sorted candidates — the extra diverse-document sections sit at
positions ≥ `limit` and are removed by the final truncation. -/
theorem diversify_eq_take (limit : ℕ) (sorted : List PySection) :
    diversify limit sorted = sorted.take limit := by
  unfold diversify
  rw [diversify_fold_take limit sorted ([], []), List.nil_append]

/-- C1 (amended): with current-section text given, `find_related_sections`
returns exactly the first `limit` candidates in boosted-score order; the
diversification pass has no effect on the result, so no section of a
not-yet-seen document is guaranteed a slot. -/
theorem find_related_top_limit (sc : ScoringModule) (current_page : ℕ)
    (current_section persona job : String) (all_sections : List PySection) (limit : ℕ)
    (hall : all_sections ≠ [])
    (hfil : all_sections.filter (fun s => pageKey s ≠ current_page) ≠ [])
    (hcs : current_section ≠ "") :
    find_related_sections sc current_page current_section persona job all_sections limit
      = ((sortByContextual (contextualize sc current_page current_section persona job
            all_sections (all_sections.filter (fun s => pageKey s ≠ current_page)))).take
          limit).map
        (relatedOf sc current_section persona job) := by
  unfold find_related_sections
  rw [if_neg hall, if_neg hfil]
  unfold selectRelated
  rw [if_pos hcs, diversify_eq_take]

/-- Witness for the amended C1 on the six-document example. -/
theorem find_related_top_limit_witness :
    find_related_sections divScoring 1 "ctx" "p" "j" divSections 3
      = ((sortByContextual (contextualize divScoring 1 "ctx" "p" "j" divSections
            (divSections.filter (fun s => pageKey s ≠ 1)))).take 3).map
        (relatedOf divScoring "ctx" "p" "j") :=
  find_related_top_limit divScoring 1 "ctx" "p" "j" divSections 3
    (by decide) (by decide) (by decide)

/-- Counterexample for C1 as stated: six candidates from documents
A, A, A, B, B, C, all within the top `2×limit`, where the three A sections
have the highest boosted scores — the returned list is all three A sections
and contains no B or C section. -/
theorem diversification_counterexample :
    ((find_related_sections divScoring 1 "ctx" "p" "j" divSections 3).map
        (fun r => r.document) = ["A", "A", "A"]) ∧
    (¬ ∃ r ∈ find_related_sections divScoring 1 "ctx" "p" "j" divSections 3,
        (r.document = "B" ∨ r.document = "C")) := by
  constructor
  · with_unfolding_all decide
  · with_unfolding_all decide

/-- Helper: splitting a run of non-whitespace characters yields one fragment,
the accumulator extended by the run. -/
theorem splitWsAux_all_nonws :
    ∀ (ks acc : List Char), (∀ c ∈ ks, ¬ c.isWhitespace = true) →
      splitWsAux ks acc = [String.mk (acc ++ ks)] := by
  intro ks
  induction ks with
  | nil => intro acc _; rw [List.append_nil]; rfl
  | cons c rest ih =>
    intro acc hw
    simp only [splitWsAux]
    rw [if_neg (hw c (List.mem_cons_self c rest)),
      ih (acc ++ [c]) (fun d hd => hw d (List.mem_cons_of_mem c hd)),
      List.append_assoc, List.singleton_append]

/-- Helper: appending a space and a whitespace-free word adds exactly one
fragment to the split. -/
theorem splitWsAux_append_word (ks : List Char) (hw : ∀ c ∈ ks, ¬ c.isWhitespace = true) :
    ∀ (cs acc : List Char),
      splitWsAux (cs ++ ' ' :: ks) acc = splitWsAux cs acc ++ [String.mk ks] := by
  intro cs
  induction cs with
  | nil =>
    intro acc
    rw [List.nil_append]
    simp only [splitWsAux]
    rw [if_pos (by decide), splitWsAux_all_nonws ks [] hw, List.nil_append]
    rfl
  | cons c rest ih =>
    intro acc
    rw [List.cons_append]
    simp only [splitWsAux]
    by_cases hc : c.isWhitespace = true
    · rw [if_pos hc, if_pos hc, ih []]
      rfl
    · rw [if_neg hc, if_neg hc, ih (acc ++ [c])]

/-- Helper: `pyWords` only looks at the character list. -/
theorem pyWords_of_toList (s t : String) (h : s.toList = t.toList) :
    pyWords s = pyWords t := by
  unfold pyWords
  rw [h]

/-- Helper: appending a space and a whitespace-free nonempty word appends that
word to the word list. -/
theorem pyWords_append_word (s k : String) (hk : k ≠ "")
    (hw : ∀ c ∈ k.toList, ¬ c.isWhitespace = true) :
    pyWords (s ++ " " ++ k) = pyWords s ++ [k] := by
  unfold pyWords
  have hdata : (s ++ " " ++ k).toList = s.toList ++ ' ' :: k.toList := by
    show (s ++ " " ++ k).data = s.data ++ ' ' :: k.data
    rw [String.data_append, String.data_append,
      show (" " : String).data = [' '] from by decide,
      List.append_assoc, List.singleton_append]
  rw [hdata, splitWsAux_append_word k.toList hw s.toList [], List.filter_append]
  congr 1
  rw [show String.mk k.toList = k from rfl]
  simp [hk]

/-- C9 (spec-modelled scorer, §4.4): for a fixed query and keyword set,
appending one further occurrence of a query keyword to a section's body text
never decreases the section's combined relevance score. -/
theorem spec_score_monotone (query : String) (kw : List String)
    (heading text k : String) (hk : k ≠ "")
    (hw : ∀ c ∈ k.toList, ¬ c.isWhitespace = true)
    (_hq : k ∈ pyWords query ∨ k ∈ kw) :
    spec_combined_score query kw heading text
      ≤ spec_combined_score query kw heading (text ++ " " ++ k) := by
  have hlist : (heading ++ " " ++ (text ++ " " ++ k)).toList
      = ((heading ++ " " ++ text) ++ " " ++ k).toList := by
    show (heading ++ " " ++ (text ++ " " ++ k)).data
      = ((heading ++ " " ++ text) ++ " " ++ k).data
    simp [String.data_append, List.append_assoc]
  have hws : pyWords (heading ++ " " ++ (text ++ " " ++ k))
      = pyWords (heading ++ " " ++ text) ++ [k] := by
    rw [pyWords_of_toList _ _ hlist]
    exact pyWords_append_word (heading ++ " " ++ text) k hk hw
  unfold spec_combined_score
  rw [hws]
  have htf : ((pyWords query).map (fun t =>
        ((pyWords (heading ++ " " ++ text)).filter (fun w => w = t)).length)).sum
      ≤ ((pyWords query).map (fun t =>
        ((pyWords (heading ++ " " ++ text) ++ [k]).filter (fun w => w = t)).length)).sum := by
    apply List.sum_le_sum
    intro t _
    rw [List.filter_append, List.length_append]
    exact Nat.le_add_right _ _
  have hov : (kw.dedup.filter (fun k2 => k2 ∈ pyWords (heading ++ " " ++ text))).length
      ≤ (kw.dedup.filter (fun k2 => k2 ∈ pyWords (heading ++ " " ++ text) ++ [k])).length := by
    rw [← List.countP_eq_length_filter, ← List.countP_eq_length_filter]
    apply List.countP_mono_left
    intro x _ hx
    simp only [decide_eq_true_eq] at hx ⊢
    exact List.mem_append_left _ hx
  exact add_le_add (Nat.cast_le.2 htf) (Nat.cast_le.2 hov)

/-- Witness for C9: appending the keyword "dinner" to the body text. -/
theorem spec_score_monotone_witness :
    spec_combined_score "cook dinner" ["dinner"] "h" "x"
      ≤ spec_combined_score "cook dinner" ["dinner"] "h" ("x" ++ " " ++ "dinner") :=
  spec_score_monotone "cook dinner" ["dinner"] "h" "x" "dinner" (by decide) (by decide)
    (Or.inr (by decide))
